import Mathlib

/-!
Verification of the PDF row-extraction and renaming program (`app.py`).

The program's core, `extract_table_data`, receives PDF bytes, parses them
into pages of text blocks (each block a list of lines, each line a list of
spans with a text string and an optional bounding box), and reconstructs the
table row anchored at the literal `"KCZ"`.  The batch driver `main` renames
each successfully extracted file and packs it into a zip archive.

We embed the program shallowly: the PDF parse outcome is the input
(`Except Unit` models the library call that can raise), floats become
rationals, Python's `round` (banker's rounding) is `pythonRound`, Python's
stable `list.sort(key=...)` is the stable `List.insertionSort` with the
lexicographic key comparison, and the `try/except` control flow becomes
explicit `Except` propagation.

The standard rational operations `+`, `-`, `/`, `|·|` are wrapped by the
kernel-computable `qadd`, `qsub`, `qdiv`, `qabs` (the library versions are
marked irreducible, which blocks evaluation by `decide`); each wrapper is
proved equal to the standard operation below, so all reasoning happens over
the ordinary field structure of `ℚ`.
-/

/-- Rational addition in kernel-computable form; `qadd_eq` proves it is
ordinary addition on `ℚ`. -/
def qadd (a b : ℚ) : ℚ :=
  Rat.divInt (a.num * (b.den : ℤ) + b.num * (a.den : ℤ)) ((a.den : ℤ) * (b.den : ℤ))

/-- Rational subtraction in kernel-computable form; `qsub_eq` proves it is
ordinary subtraction on `ℚ`. -/
def qsub (a b : ℚ) : ℚ :=
  qadd a (Rat.neg b)

/-- Rational absolute value in kernel-computable form; `qabs_eq` proves it
is the ordinary absolute value on `ℚ`. -/
def qabs (a : ℚ) : ℚ :=
  if a.num < 0 then Rat.neg a else a

/-- Rational division in kernel-computable form; `qdiv_eq` proves it is
ordinary division on `ℚ`. -/
def qdiv (a b : ℚ) : ℚ :=
  Rat.divInt (a.num * (b.den : ℤ)) ((a.den : ℤ) * b.num)

/-- The constant `1/2` in kernel-computable form. -/
def qhalf : ℚ := mkRat 1 2

/-- A text span as produced by `page.get_text("dict")`: raw text and an
optional bounding box `(x0, y0, x1, y1)` (the source skips spans whose
bbox is missing/empty). -/
structure Span where
  text : String
  bbox : Option (ℚ × ℚ × ℚ × ℚ)
deriving DecidableEq, Repr

/-- A block of the page dictionary: its `"type"` field and its lines,
each line a list of spans. -/
structure Block where
  btype : ℤ
  lines : List (List Span)
deriving DecidableEq, Repr

/-- A kept text fragment: stripped non-empty text with the top-left corner
of its bounding box, as appended to `potential_cells` in the source. -/
structure Cell where
  text : String
  x : ℚ
  y : ℚ
deriving DecidableEq, Repr

/-- Python's `str.strip()`: drop leading and trailing whitespace
characters (embedded structurally over the character list, so that it
evaluates in the kernel). -/
def pyStrip (s : String) : String :=
  ⟨((s.data.dropWhile Char.isWhitespace).reverse.dropWhile Char.isWhitespace).reverse⟩

/-- One span's contribution to `potential_cells`: kept iff its stripped
text is non-empty and it has a bbox; then `{'text': text, 'x': x0, 'y': y0}`. -/
def spanCell (s : Span) : Option Cell :=
  let t := pyStrip s.text
  if t = "" then none
  else
    match s.bbox with
    | none => none
    | some (x0, y0, _, _) => some ⟨t, x0, y0⟩

/-- The `potential_cells` list of a page: spans of text blocks
(`block["type"] == 0`), in block / line / span order. -/
def potentialCells (blocks : List Block) : List Cell :=
  (blocks.filter (fun b => b.btype = 0)).flatMap
    (fun b => b.lines.flatMap (fun line => line.filterMap spanCell))

/-- Python's built-in `round`: round half to even. -/
def pythonRound (q : ℚ) : ℤ :=
  let f := q.floor
  let frac := qsub q (Rat.ofInt f)
  if frac < qhalf then f
  else if qhalf < frac then f + 1
  else if f % 2 = 0 then f else f + 1

/-- The sort band of a cell: `round(c['y'] / 5)`. -/
def band (c : Cell) : ℤ :=
  pythonRound (qdiv c.y 5)

/-- The key comparison used by `potential_cells.sort`: Python tuple order
on `(round(y / 5), x)`. -/
def cellLe (c d : Cell) : Bool :=
  decide (band c < band d) || (decide (band c = band d) && decide (c.x ≤ d.x))

/-- `potential_cells.sort(key=lambda c: (round(c['y'] / 5), c['x']))` —
Python's sort is stable, and any two stable sorts by the same total
preorder agree, so the stable `List.insertionSort` embeds it exactly. -/
def sortCells (l : List Cell) : List Cell :=
  List.insertionSort (fun c d => cellLe c d = true) l

/-- The row-collection walk (the inner `for j in range(i + 1, ...)` loop):
append while `|next.y - current_y| < 5`, `break` once `next.y > current_y + 10`,
otherwise keep scanning. -/
def collectRow (currentY : ℚ) : List Cell → List String
  | [] => []
  | c :: rest =>
    if qabs (qsub c.y currentY) < 5 then c.text :: collectRow currentY rest
    else if qadd currentY 10 < c.y then []
    else collectRow currentY rest

/-- The anchor scan (the `for i, cell in enumerate(potential_cells)` loop):
at each cell whose text is `'KCZ'`, build `row_cells`; if it has at least 9
elements return the first 9, otherwise keep scanning. -/
def findRow : List Cell → Option (List String)
  | [] => none
  | c :: rest =>
    if c.text = "KCZ" then
      let rowCells := c.text :: collectRow c.y rest
      if 9 ≤ rowCells.length then some (rowCells.take 9)
      else findRow rest
    else findRow rest

/-- One page's contribution: sort the kept cells, then scan for a row. -/
def pageRow (blocks : List Block) : Option (List String) :=
  findRow (sortCells (potentialCells blocks))

/-- The `for page in doc` loop: return the first page's row, if any. -/
def extractPages : List (List Block) → Option (List String)
  | [] => none
  | p :: ps =>
    match pageRow p with
    | some r => some r
    | none => extractPages ps

/-- `extract_table_data(pdf_bytes)`: the input is the outcome of
`fitz.open` (which can raise).  The `except` handler reports the error to
the UI and returns `None`, so a parse failure produces the same `none` as
an exhausted page loop. -/
def extract_table_data (input : Except Unit (List (List Block))) :
    Option (List String) :=
  match input with
  | .error _ => none
  | .ok pages => extractPages pages

/-! ### Instrumented run: document-handle accounting

`extract_table_data` wraps everything in `try/except`; any library call
inside the loop can raise as well.  The instrumented model takes each
page's `get_text` outcome as part of the input and records whether the
document handle was opened and whether it was closed before returning. -/

/-- The observable outcome of one call: the returned value plus whether a
document handle was acquired and whether it was released. -/
structure ExtractTrace where
  result : Option (List String)
  openedDoc : Bool
  closedDoc : Bool
deriving DecidableEq, Repr

/-- The page loop when each page's `get_text` may raise: an exception
propagates out of the loop. -/
def extractPagesE : List (Except Unit (List Block)) → Except Unit (Option (List String))
  | [] => .ok none
  | p :: ps =>
    match p with
    | .error e => .error e
    | .ok blocks =>
      match pageRow blocks with
      | some r => .ok (some r)
      | none => extractPagesE ps

/-- The whole call with handle accounting.  The source calls `doc.close()`
before each `return` inside the `try`, but the `except` handler returns
without closing, so an exception raised after `fitz.open` succeeds leaves
the handle open. -/
def extract_table_data_run
    (input : Except Unit (List (Except Unit (List Block)))) : ExtractTrace :=
  match input with
  | .error _ => ⟨none, false, false⟩
  | .ok pages =>
    match extractPagesE pages with
    | .ok (some r) => ⟨some r, true, true⟩
    | .ok none => ⟨none, true, true⟩
    | .error _ => ⟨none, true, false⟩

/-! ### The batch driver (`main`)

Per uploaded file: extract, and on success join the first 9 tokens with
underscores, sanitize, append `.pdf`, de-duplicate against the names
generated so far, write the file into the zip, and append a result row;
on failure append a failure row.  A file is a pair of its original name
and its parse outcome. -/

/-- `re.sub(r'[<>:"/\\|?*]', '_', base_name)`: replace every character of
the forbidden set by an underscore. -/
def sanitize (s : String) : String :=
  ⟨s.data.map (fun ch =>
    if ch ∈ ['<', '>', ':', '\"', '/', '\\', '|', '?', '*'] then '_' else ch)⟩

/-- The `while final_new_name in generated_new_names` loop.  Note the
candidate names are built from the unsanitized `base_name`.  The fuel
argument only bounds the loop; `names.length + 1` attempts always
suffice. -/
def dedupLoop (baseName : String) (names : List String) :
    String → ℕ → ℕ → String
  | cand, _, 0 => cand
  | cand, counter, fuel + 1 =>
    if cand ∈ names then
      dedupLoop baseName names
        (baseName ++ "_" ++ toString counter ++ ".pdf") (counter + 1) fuel
    else cand

/-- The final archive name chosen for a base name, given the names already
generated in this batch. -/
def finalNewName (baseName : String) (names : List String) : String :=
  dedupLoop baseName names (sanitize baseName ++ ".pdf") 1 (names.length + 1)

/-- The driver's mutable state: the results table, the two counters, the
zip archive's entry names, and `generated_new_names`. -/
structure BatchState where
  results : List (String × String × String)
  successCount : ℕ
  failCount : ℕ
  zipEntries : List String
  generatedNames : List String
deriving DecidableEq, Repr

/-- State before the loop: empty results, zero counters, empty zip. -/
def initialBatchState : BatchState := ⟨[], 0, 0, [], []⟩

/-- One iteration of the `for i, uploaded_file in enumerate(uploaded_files)`
loop.  The success branch requires `table_data and len(table_data) >= 9`;
`9 ≤ td.length` already implies the truthiness of `td`. -/
def processFile (st : BatchState)
    (f : String × Except Unit (List (List Block))) : BatchState :=
  match extract_table_data f.2 with
  | some td =>
    if 9 ≤ td.length then
      let baseName := String.intercalate "_" (td.take 9)
      let finalName := finalNewName baseName st.generatedNames
      { results := st.results ++ [("Success", f.1, finalName)]
        successCount := st.successCount + 1
        failCount := st.failCount
        zipEntries := st.zipEntries ++ [finalName]
        generatedNames := finalName :: st.generatedNames }
    else
      { st with
        results := st.results ++ [("Failed", f.1, "Could not extract required data.")]
        failCount := st.failCount + 1 }
  | none =>
    { st with
      results := st.results ++ [("Failed", f.1, "Could not extract required data.")]
      failCount := st.failCount + 1 }

/-- The whole batch loop over the uploaded files. -/
def processBatch (files : List (String × Except Unit (List (List Block)))) :
    BatchState :=
  files.foldl processFile initialBatchState

/-! ### Concrete documents used as test inputs -/

/-- The one-page document of the end-to-end scenario: ten fragments on one
visual line at `y = 100`. -/
def c8Page : List Block :=
  [⟨0, [[⟨"KCZ", some (0, 100, 1, 101)⟩, ⟨"DMX", some (40, 100, 41, 101)⟩,
        ⟨"O", some (70, 100, 71, 101)⟩, ⟨"03", some (90, 100, 91, 101)⟩,
        ⟨"TL", some (120, 100, 121, 101)⟩, ⟨"PR", some (150, 100, 151, 101)⟩,
        ⟨"004", some (180, 100, 181, 101)⟩, ⟨"R", some (210, 100, 211, 101)⟩,
        ⟨"14", some (240, 100, 241, 101)⟩, ⟨"EXTRA", some (270, 100, 271, 101)⟩]]⟩]

/-- A page with two `"KCZ"` fragments: the first (at `y = 0`) is alone on
its line, the second (at `y = 100`) is followed by eight same-line
fragments. -/
def twoAnchorPage : List Block :=
  [⟨0, [[⟨"KCZ", some (0, 0, 1, 1)⟩,
        ⟨"KCZ", some (0, 100, 1, 101)⟩, ⟨"A", some (10, 100, 11, 101)⟩,
        ⟨"B", some (20, 100, 21, 101)⟩, ⟨"C", some (30, 100, 31, 101)⟩,
        ⟨"D", some (40, 100, 41, 101)⟩, ⟨"E", some (50, 100, 51, 101)⟩,
        ⟨"F", some (60, 100, 61, 101)⟩, ⟨"G", some (70, 100, 71, 101)⟩,
        ⟨"H", some (80, 100, 81, 101)⟩]]⟩]

/-- A page whose extracted row's second token contains a forbidden
character (`"A/B"`). -/
def slashPage : List Block :=
  [⟨0, [[⟨"KCZ", some (0, 100, 1, 101)⟩, ⟨"A/B", some (10, 100, 11, 101)⟩,
        ⟨"C", some (20, 100, 21, 101)⟩, ⟨"D", some (30, 100, 31, 101)⟩,
        ⟨"E", some (40, 100, 41, 101)⟩, ⟨"F", some (50, 100, 51, 101)⟩,
        ⟨"G", some (60, 100, 61, 101)⟩, ⟨"H", some (70, 100, 71, 101)⟩,
        ⟨"I", some (80, 100, 81, 101)⟩]]⟩]

/-! ### Correctness of the kernel-computable wrappers -/

theorem qadd_eq (a b : ℚ) : qadd a b = a + b := by
  have had : ((a.den : ℤ)) ≠ 0 := by
    exact_mod_cast a.den_nz
  have hbd : ((b.den : ℤ)) ≠ 0 := by
    exact_mod_cast b.den_nz
  rw [qadd, ← Rat.divInt_add_divInt _ _ had hbd, Rat.num_divInt_den, Rat.num_divInt_den]

theorem qsub_eq (a b : ℚ) : qsub a b = a - b := by
  have : Rat.neg b = -b := rfl
  rw [qsub, this, qadd_eq, sub_eq_add_neg]

theorem qabs_eq (a : ℚ) : qabs a = |a| := by
  have hneg : Rat.neg a = -a := rfl
  rw [qabs]
  by_cases h : a.num < 0
  · rw [if_pos h, hneg, abs_of_neg]
    exact Rat.num_neg.mp h
  · rw [if_neg h]
    rw [abs_of_nonneg]
    have : 0 ≤ a.num := le_of_not_lt h
    exact Rat.num_nonneg.mp this

theorem qdiv_eq (a b : ℚ) : qdiv a b = a / b := by
  rw [qdiv, Rat.div_def' a b]

theorem qhalf_eq : qhalf = 1 / 2 := by
  rw [qhalf]
  norm_num [mkRat, Rat.normalize]

/-! ### Facts about `pythonRound`, `band` and the key order -/

/-- Batteries' `Rat.floor` agrees with the `⌊·⌋` of the floor ring `ℚ`. -/
theorem ratFloor_eq (q : ℚ) : q.floor = ⌊q⌋ := by
  rw [Rat.floor_def', Rat.floor_def]

/-- Python's round never moves a value by more than `1/2`. -/
theorem pythonRound_abs_le (q : ℚ) : |q - (pythonRound q : ℚ)| ≤ 1 / 2 := by
  have hfl : (⌊q⌋ : ℚ) ≤ q := Int.floor_le q
  have hfu : q < ⌊q⌋ + 1 := Int.lt_floor_add_one q
  simp only [pythonRound, ratFloor_eq, qsub_eq, Rat.ofInt_eq_cast, qhalf_eq]
  split_ifs with h1 h2 h3
  · rw [abs_le]
    constructor <;> linarith
  · rw [abs_le]
    push_cast
    constructor <;> linarith
  · rw [abs_le]
    have he : q - (⌊q⌋ : ℚ) = 1 / 2 := le_antisymm (not_lt.mp h2) (not_lt.mp h1)
    constructor <;> linarith
  · rw [abs_le]
    have he : q - (⌊q⌋ : ℚ) = 1 / 2 := le_antisymm (not_lt.mp h2) (not_lt.mp h1)
    push_cast
    constructor <;> linarith

/-- The `y` of a cell lies within `5/2` of the centre of its sort band. -/
theorem band_bounds (c : Cell) :
    5 * (band c : ℚ) - 5 / 2 ≤ c.y ∧ c.y ≤ 5 * (band c : ℚ) + 5 / 2 := by
  have h := pythonRound_abs_le (qdiv c.y 5)
  rw [qdiv_eq, abs_le] at h
  have hb : (band c : ℚ) = (pythonRound (qdiv c.y 5) : ℚ) := by rw [band]
  rw [qdiv_eq] at hb
  constructor <;> rw [hb] <;> linarith [h.1, h.2]

/-- A cell at-or-after another in the sort order sits in the same band or
a later one. -/
theorem band_le_of_cellLe {c d : Cell} (h : cellLe c d = true) : band c ≤ band d := by
  rw [cellLe] at h
  rcases Bool.or_eq_true_iff.mp h with h1 | h2
  · exact le_of_lt (of_decide_eq_true h1)
  · exact le_of_eq (of_decide_eq_true (Bool.and_eq_true_iff.mp h2).1)

/-- In the sorted order, a later cell's `y` can be below an earlier cell's
`y` by less than `5` at most (bands are `5` tall and rounded to centres). -/
theorem y_ge_of_cellLe {c d : Cell} (h : cellLe c d = true) : c.y - 5 ≤ d.y := by
  have hb := band_le_of_cellLe h
  have h1 := (band_bounds c).2
  have h2 := (band_bounds d).1
  have : (band c : ℚ) ≤ (band d : ℚ) := by exact_mod_cast hb
  linarith

/-- The key comparison is total. -/
theorem cellLe_total (c d : Cell) : cellLe c d = true ∨ cellLe d c = true := by
  rw [cellLe, cellLe]
  rcases lt_trichotomy (band c) (band d) with h | h | h
  · left
    simp [h]
  · rcases le_total c.x d.x with hx | hx
    · left
      simp [h, hx, le_of_eq h]
    · right
      simp [h.symm, hx]
  · right
    simp [h]

/-- The key comparison is transitive. -/
theorem cellLe_trans {c d e : Cell} (h1 : cellLe c d = true) (h2 : cellLe d e = true) :
    cellLe c e = true := by
  rw [cellLe] at h1 h2 ⊢
  rcases Bool.or_eq_true_iff.mp h1 with ha | ha <;>
    rcases Bool.or_eq_true_iff.mp h2 with hb | hb
  · have := lt_trans (of_decide_eq_true ha) (of_decide_eq_true hb)
    simp [this]
  · obtain ⟨hb1, _⟩ := Bool.and_eq_true_iff.mp hb
    have := lt_of_lt_of_eq (of_decide_eq_true ha) (of_decide_eq_true hb1)
    simp [this]
  · obtain ⟨ha1, _⟩ := Bool.and_eq_true_iff.mp ha
    have := lt_of_eq_of_lt (of_decide_eq_true ha1) (of_decide_eq_true hb)
    simp [this]
  · obtain ⟨ha1, ha2⟩ := Bool.and_eq_true_iff.mp ha
    obtain ⟨hb1, hb2⟩ := Bool.and_eq_true_iff.mp hb
    have he : band c = band e :=
      (of_decide_eq_true ha1).trans (of_decide_eq_true hb1)
    have hx : c.x ≤ e.x := le_trans (of_decide_eq_true ha2) (of_decide_eq_true hb2)
    simp [he, hx]

/-- Sorting the cells permutes them. -/
theorem sortCells_perm (l : List Cell) : List.Perm (sortCells l) l :=
  List.perm_insertionSort _ l

/-- Sorting the cells indeed orders them by the Python sort key. -/
theorem sortCells_sorted (l : List Cell) :
    (sortCells l).Pairwise (fun c d => cellLe c d = true) := by
  haveI : IsTotal Cell (fun c d => cellLe c d = true) := ⟨cellLe_total⟩
  haveI : IsTrans Cell (fun c d => cellLe c d = true) :=
    ⟨fun _ _ _ => cellLe_trans⟩
  exact List.sorted_insertionSort _ l

/-! ### The row-collection walk and the anchor scan -/

/-- The collected texts are a subsequence of the walked cells' texts. -/
theorem collectRow_sublist (y : ℚ) :
    ∀ l : List Cell, (collectRow y l).Sublist (l.map Cell.text)
  | [] => by simp [collectRow]
  | c :: rest => by
    rw [collectRow]
    split_ifs with h1 h2
    · exact List.Sublist.cons₂ _ (collectRow_sublist y rest)
    · simp
    · exact (collectRow_sublist y rest).trans (List.sublist_cons_self _ _)

/-- A returned row has exactly 9 elements and starts with the anchor. -/
theorem findRow_some_spec :
    ∀ l : List Cell, ∀ r : List String, findRow l = some r →
      r.length = 9 ∧ r.head? = some "KCZ"
  | [], r, h => by simp [findRow] at h
  | c :: rest, r, h => by
    simp only [findRow] at h
    split_ifs at h with h1 h2
    · obtain rfl := Option.some.inj h
      refine ⟨?_, ?_⟩
      · rw [List.length_take]
        simp only [List.length_cons] at h2 ⊢
        omega
      · rw [List.take_succ_cons, h1]
        rfl
    · exact findRow_some_spec rest r h
    · exact findRow_some_spec rest r h

/-- A returned row reads off a subsequence of the scanned cells' texts in
their list order. -/
theorem findRow_sublist :
    ∀ l : List Cell, ∀ r : List String, findRow l = some r →
      r.Sublist (l.map Cell.text)
  | [], r, h => by simp [findRow] at h
  | c :: rest, r, h => by
    simp only [findRow] at h
    split_ifs at h with h1 h2
    · obtain rfl := Option.some.inj h
      simp only [List.map_cons]
      exact (List.take_sublist _ _).trans
        (List.Sublist.cons₂ _ (collectRow_sublist c.y rest))
    · exact (findRow_sublist rest r h).trans (List.sublist_cons_self _ _)
    · exact (findRow_sublist rest r h).trans (List.sublist_cons_self _ _)

/-! ### The page loop -/

/-- When no page raises, the instrumented page loop computes exactly what
the plain page loop computes. -/
theorem extractPagesE_map_ok :
    ∀ pages : List (List Block),
      extractPagesE (pages.map Except.ok) = .ok (extractPages pages)
  | [] => rfl
  | p :: ps => by
    rw [List.map_cons, extractPagesE, extractPages]
    cases pageRow p with
    | some r => rfl
    | none => exact extractPagesE_map_ok ps

/-- Pages before the first qualifying one are skipped; the first page with
a row decides the result, whatever follows it. -/
theorem extractPages_of_prev_none :
    ∀ (ps : List (List Block)) (qs : List (List Block)) (p : List Block)
      (r : List String), pageRow p = some r → (∀ q ∈ ps, pageRow q = none) →
      extractPages (ps ++ p :: qs) = some r
  | [], qs, p, r, hp, _ => by rw [List.nil_append, extractPages, hp]
  | q :: ps', qs, p, r, hp, hprev => by
    rw [List.cons_append, extractPages, hprev q (List.mem_cons_self q _)]
    exact extractPages_of_prev_none ps' qs p r hp
      (fun q' hq' => hprev q' (List.mem_cons_of_mem _ hq'))

/-- Any row the page loop returns has the shape guaranteed by the scan. -/
theorem extractPages_some_spec :
    ∀ (pages : List (List Block)) (r : List String), extractPages pages = some r →
      r.length = 9 ∧ r.head? = some "KCZ"
  | [], r, h => by simp [extractPages] at h
  | p :: ps, r, h => by
    rw [extractPages] at h
    cases hp : pageRow p with
    | some row =>
      rw [hp] at h
      exact Option.some.inj h ▸ findRow_some_spec _ _ hp
    | none =>
      rw [hp] at h
      exact extractPages_some_spec ps r h

/-! ### The batch loop -/

/-- Each handled file appends exactly one result row, bumps exactly one of
the two counters, and adds a zip entry exactly when it bumps the success
counter. -/
theorem processFile_counts (st : BatchState)
    (f : String × Except Unit (List (List Block))) :
    (processFile st f).results.length = st.results.length + 1 ∧
    (processFile st f).successCount + (processFile st f).failCount
      = st.successCount + st.failCount + 1 ∧
    (processFile st f).zipEntries.length + st.successCount
      = st.zipEntries.length + (processFile st f).successCount := by
  cases htd : extract_table_data f.2 with
  | none =>
    simp [processFile, htd]
    omega
  | some td =>
    by_cases h9 : 9 ≤ td.length <;>
      simp [processFile, htd, h9] <;> omega

/-- The loop invariant, over any start state. -/
theorem foldl_process_inv :
    ∀ (files : List (String × Except Unit (List (List Block)))) (st : BatchState),
      ((files.foldl processFile st).results.length
        = st.results.length + files.length) ∧
      ((files.foldl processFile st).successCount
          + (files.foldl processFile st).failCount
        = st.successCount + st.failCount + files.length) ∧
      ((files.foldl processFile st).zipEntries.length + st.successCount
        = st.zipEntries.length + (files.foldl processFile st).successCount)
  | [], st => by simp
  | f :: fs, st => by
    rw [List.foldl_cons]
    obtain ⟨h1, h2, h3⟩ := foldl_process_inv fs (processFile st f)
    obtain ⟨g1, g2, g3⟩ := processFile_counts st f
    have hlen : (f :: fs).length = fs.length + 1 := rfl
    refine ⟨?_, ?_, ?_⟩ <;> omega

/-! ### The claims -/

/-- C1: for every input on which `extract_table_data` returns a row, the
row has length exactly 9 and its first element is the anchor `"KCZ"`. -/
theorem C1_row_shape (input : Except Unit (List (List Block))) (r : List String)
    (h : extract_table_data input = some r) :
    r.length = 9 ∧ r.head? = some "KCZ" := by
  match input with
  | .error e => simp [extract_table_data] at h
  | .ok pages => exact extractPages_some_spec pages r h

/-- C1 witness: the theorem applied to the concrete ten-fragment document. -/
theorem C1_row_shape_witness :
    (["KCZ", "DMX", "O", "03", "TL", "PR", "004", "R", "14"] : List String).length = 9 ∧
    (["KCZ", "DMX", "O", "03", "TL", "PR", "004", "R", "14"] : List String).head?
      = some "KCZ" :=
  C1_row_shape (.ok [c8Page]) _ (by decide)

/-- C2 counterexample: a parse-failure input and a successfully parsed
document in which the anchor is not found both return the value `none`, so
the two failures cannot be told apart from the returned value alone. -/
theorem C2_value_counterexample :
    extract_table_data (Except.error ()) = none ∧
    extract_table_data (Except.ok []) = none ∧
    extract_table_data (Except.error ()) = extract_table_data (Except.ok []) :=
  ⟨rfl, rfl, rfl⟩

/-- C2 amended: a parse failure produces exactly the same returned value
(`None`) as the ordinary anchor-not-found outcome; the two are
distinguished only by a side-effect UI message, not by the return value. -/
theorem C2_amended_same_none (pages : List (List Block))
    (h : extractPages pages = none) :
    extract_table_data (Except.ok pages) = extract_table_data (Except.error ()) :=
  h

/-- C2 witness: the amended theorem applied to the empty document. -/
theorem C2_amended_same_none_witness :
    extract_table_data (Except.ok []) = extract_table_data (Except.error ()) :=
  C2_amended_same_none [] rfl

/-- C8: on the one-page document with ten same-line fragments, extraction
returns exactly the first nine tokens, dropping `"EXTRA"`. -/
theorem C8_scenario :
    extract_table_data (.ok [c8Page]) =
      some ["KCZ", "DMX", "O", "03", "TL", "PR", "004", "R", "14"] := by decide

/-- C9: the claim fails on the code — when a page's text extraction raises
after the document was opened, control reaches the `except` handler, which
returns without calling `doc.close()`, so the handle is not released. -/
theorem C9_exception_leaks_handle :
    (extract_table_data_run (Except.ok [Except.error ()])).openedDoc = true ∧
    (extract_table_data_run (Except.ok [Except.error ()])).closedDoc = false ∧
    (extract_table_data_run (Except.ok [Except.error ()])).result = none :=
  ⟨rfl, rfl, rfl⟩

/-- C3: during the row-collection walk, for a fragment at-or-after the
anchor in the sorted order: within tight tolerance it is appended; in the
dead zone (at least 5, at most 10) it is skipped without terminating; and
beyond 10 in either direction the walk terminates without appending. -/
theorem C3_walk_cases (a c : Cell) (rest : List Cell)
    (hle : cellLe a c = true) :
    (|c.y - a.y| < 5 →
        collectRow a.y (c :: rest) = c.text :: collectRow a.y rest) ∧
    (5 ≤ |c.y - a.y| ∧ |c.y - a.y| ≤ 10 →
        collectRow a.y (c :: rest) = collectRow a.y rest) ∧
    (10 < |c.y - a.y| → collectRow a.y (c :: rest) = []) := by
  have hy := y_ge_of_cellLe hle
  refine ⟨fun h => ?_, fun h => ?_, fun h => ?_⟩
  · have hA : qabs (qsub c.y a.y) < 5 := by
      rw [qabs_eq, qsub_eq]
      exact h
    rw [collectRow, if_pos hA]
  · have hA : ¬ qabs (qsub c.y a.y) < 5 := by
      rw [qabs_eq, qsub_eq]
      exact not_lt.mpr h.1
    have hB : ¬ qadd a.y 10 < c.y := by
      rw [qadd_eq]
      have h2 := (abs_le.mp h.2).2
      exact not_lt.mpr (by linarith)
    rw [collectRow, if_neg hA, if_neg hB]
  · have hpos : 10 < c.y - a.y := by
      rcases abs_cases (c.y - a.y) with ⟨he, _⟩ | ⟨he, _⟩
      · rwa [he] at h
      · rw [he] at h
        linarith
    have hA : ¬ qabs (qsub c.y a.y) < 5 := by
      rw [qabs_eq, qsub_eq]
      exact not_lt.mpr (by rcases abs_cases (c.y - a.y) with ⟨he, _⟩ | ⟨he, _⟩ <;>
        rw [he] <;> linarith)
    have hB : qadd a.y 10 < c.y := by
      rw [qadd_eq]
      linarith
    rw [collectRow, if_neg hA, if_pos hB]

/-- C3 witness: the theorem at an anchor at `y = 100` and a fragment at
`y = 112`, at-or-after it in the sort order. -/
theorem C3_walk_cases_witness :
    (|(112 : ℚ) - 100| < 5 →
        collectRow 100 [⟨"X", 10, 112⟩] = "X" :: collectRow 100 []) ∧
    ((5 : ℚ) ≤ |(112 : ℚ) - 100| ∧ |(112 : ℚ) - 100| ≤ 10 →
        collectRow 100 [⟨"X", 10, 112⟩] = collectRow 100 []) ∧
    (10 < |(112 : ℚ) - 100| → collectRow 100 [⟨"X", 10, 112⟩] = []) :=
  C3_walk_cases ⟨"KCZ", 0, 100⟩ ⟨"X", 10, 112⟩ [] (by decide)

/-- C4 counterexample: on `twoAnchorPage` the first `"KCZ"` of the sorted
order yields a 1-element candidate row (fewer than 9), yet the page still
contributes a row — built from the second `"KCZ"` — so extraction does not
move on anchor-less as the claim states. -/
theorem C4_counterexample :
    ((sortCells (potentialCells twoAnchorPage)).getD 0 ⟨"", 0, 0⟩).text = "KCZ" ∧
    (((sortCells (potentialCells twoAnchorPage)).getD 0 ⟨"", 0, 0⟩).text ::
        collectRow ((sortCells (potentialCells twoAnchorPage)).getD 0 ⟨"", 0, 0⟩).y
          ((sortCells (potentialCells twoAnchorPage)).drop 1)).length < 9 ∧
    extract_table_data (.ok [twoAnchorPage]) =
      some ["KCZ", "A", "B", "C", "D", "E", "F", "G", "H"] := by decide

/-- C4 amended: the scan builds a candidate row at every fragment whose
text is `"KCZ"`, in sorted order; the first such anchor whose row reaches
9 elements decides the page's row. -/
theorem C4_first_qualifying_anchor :
    ∀ (d : Cell) (l : List Cell) (i : ℕ), i < l.length →
      (l.getD i d).text = "KCZ" →
      (∀ j, j < i → ((l.getD j d).text = "KCZ" →
        ((l.getD j d).text :: collectRow (l.getD j d).y (l.drop (j + 1))).length < 9)) →
      9 ≤ ((l.getD i d).text :: collectRow (l.getD i d).y (l.drop (i + 1))).length →
      findRow l = some (((l.getD i d).text ::
        collectRow (l.getD i d).y (l.drop (i + 1))).take 9)
  | d, [], i, hi, _, _, _ => absurd hi (by simp)
  | d, c :: rest, 0, hi, hanchor, hprev, hlen => by
    simp only [List.getD_cons_zero, List.drop_succ_cons, List.drop_zero]
      at hanchor hlen ⊢
    simp only [findRow]
    rw [if_pos hanchor, if_pos hlen]
  | d, c :: rest, i + 1, hi, hanchor, hprev, hlen => by
    have hi' : i < rest.length := by
      simpa using hi
    have hanchor' : (rest.getD i d).text = "KCZ" := by
      simpa only [List.getD_cons_succ] using hanchor
    have hlen' : 9 ≤ ((rest.getD i d).text ::
        collectRow (rest.getD i d).y (rest.drop (i + 1))).length := by
      simpa only [List.getD_cons_succ, List.drop_succ_cons] using hlen
    have hprev' : ∀ j, j < i → ((rest.getD j d).text = "KCZ" →
        ((rest.getD j d).text :: collectRow (rest.getD j d).y
          (rest.drop (j + 1))).length < 9) := by
      intro j hj
      simpa only [List.getD_cons_succ, List.drop_succ_cons]
        using hprev (j + 1) (by omega)
    have hrec := C4_first_qualifying_anchor d rest i hi' hanchor' hprev' hlen'
    simp only [List.getD_cons_succ, List.drop_succ_cons]
    by_cases hc : c.text = "KCZ"
    · have hshort := hprev 0 (by omega)
      simp only [List.getD_cons_zero, List.drop_succ_cons, List.drop_zero] at hshort
      simp only [findRow]
      rw [if_pos hc, if_neg (not_le.mpr (hshort hc))]
      exact hrec
    · simp only [findRow]
      rw [if_neg hc]
      exact hrec

/-- C4 witness: the amended theorem applied to the sorted cells of
`twoAnchorPage`, whose second sorted cell is the qualifying anchor. -/
theorem C4_first_qualifying_anchor_witness :
    findRow (sortCells (potentialCells twoAnchorPage)) =
      some ((((sortCells (potentialCells twoAnchorPage)).getD 1 ⟨"", 0, 0⟩).text ::
        collectRow (((sortCells (potentialCells twoAnchorPage)).getD 1 ⟨"", 0, 0⟩)).y
          ((sortCells (potentialCells twoAnchorPage)).drop 2)).take 9) :=
  C4_first_qualifying_anchor ⟨"", 0, 0⟩ (sortCells (potentialCells twoAnchorPage)) 1
    (by decide) (by decide) (by decide) (by decide)

/-- C5: the claim fails on the code at this input — with two files whose
rows coincide and contain `"A/B"`, the first archive name is sanitized but
the de-duplicated second name is rebuilt from the unsanitized base name
and still contains the forbidden character `/`. -/
theorem C5_dedup_unsanitized :
    (processBatch [("a.pdf", .ok [slashPage]), ("b.pdf", .ok [slashPage])]).zipEntries =
      ["KCZ_A_B_C_D_E_F_G_H_I.pdf", "KCZ_A/B_C_D_E_F_G_H_I_1.pdf"] ∧
    '/' ∈ "KCZ_A/B_C_D_E_F_G_H_I_1.pdf".data := by decide

/-- C6: pages are visited in order and the first page yielding a row
decides the result: whatever pages follow it are never consulted, and the
result is the 9-element truncated row. -/
theorem C6_first_page_wins (ps qs : List (List Block)) (p : List Block)
    (r : List String) (hp : pageRow p = some r)
    (hprev : ∀ q ∈ ps, pageRow q = none) :
    extract_table_data (.ok (ps ++ p :: qs)) = some r ∧ r.length = 9 :=
  ⟨extractPages_of_prev_none ps qs p r hp hprev, (findRow_some_spec _ _ hp).1⟩

/-- C6 witness: an empty first page is skipped, the second page decides,
and the trailing page (which would also qualify) is ignored. -/
theorem C6_first_page_wins_witness :
    extract_table_data (.ok ([[]] ++ c8Page :: [c8Page])) =
      some ["KCZ", "DMX", "O", "03", "TL", "PR", "004", "R", "14"] ∧
    (["KCZ", "DMX", "O", "03", "TL", "PR", "004", "R", "14"] : List String).length = 9 :=
  C6_first_page_wins [[]] [c8Page] c8Page _ (by decide) (by decide)

/-- C7: the sort comparison is exactly the lexicographic order on
`(round(y / 5), x)`; sorting orders the kept cells by it while permuting
them; and any returned row reads its elements off in this sorted order. -/
theorem C7_sort_spec :
    (∀ c d : Cell, cellLe c d = true ↔
      (band c < band d ∨ (band c = band d ∧ c.x ≤ d.x))) ∧
    (∀ l : List Cell, (sortCells l).Pairwise (fun c d => cellLe c d = true) ∧
      List.Perm (sortCells l) l) ∧
    (∀ (blocks : List Block) (r : List String), pageRow blocks = some r →
      r.Sublist ((sortCells (potentialCells blocks)).map Cell.text)) := by
  refine ⟨?_, fun l => ⟨sortCells_sorted l, sortCells_perm l⟩, ?_⟩
  · intro c d
    rw [cellLe]
    constructor
    · intro h
      rcases Bool.or_eq_true_iff.mp h with h1 | h2
      · exact Or.inl (of_decide_eq_true h1)
      · obtain ⟨h2a, h2b⟩ := Bool.and_eq_true_iff.mp h2
        exact Or.inr ⟨of_decide_eq_true h2a, of_decide_eq_true h2b⟩
    · intro h
      rcases h with h | ⟨h1, h2⟩
      · exact Bool.or_eq_true_iff.mpr (Or.inl (decide_eq_true h))
      · exact Bool.or_eq_true_iff.mpr
          (Or.inr (Bool.and_eq_true_iff.mpr ⟨decide_eq_true h1, decide_eq_true h2⟩))
  · intro blocks r h
    exact findRow_sublist _ _ h

/-- C7 witness: the row returned for the scenario page is a subsequence of
its sorted cells' texts. -/
theorem C7_sort_spec_witness :
    (["KCZ", "DMX", "O", "03", "TL", "PR", "004", "R", "14"] : List String).Sublist
      ((sortCells (potentialCells c8Page)).map Cell.text) :=
  C7_sort_spec.2.2 c8Page _ (by decide)

/-- C10: after any batch, there is exactly one result entry per file, the
two counters sum to the number of files, and the zip archive holds exactly
one entry per counted success. -/
theorem C10_batch_invariant
    (files : List (String × Except Unit (List (List Block)))) :
    (processBatch files).results.length = files.length ∧
    (processBatch files).successCount + (processBatch files).failCount
      = files.length ∧
    (processBatch files).zipEntries.length = (processBatch files).successCount := by
  obtain ⟨h1, h2, h3⟩ := foldl_process_inv files initialBatchState
  have e1 : initialBatchState.results.length = 0 := rfl
  have e2 : initialBatchState.successCount = 0 := rfl
  have e3 : initialBatchState.failCount = 0 := rfl
  have e4 : initialBatchState.zipEntries.length = 0 := rfl
  rw [processBatch]
  refine ⟨?_, ?_, ?_⟩ <;> omega
